import Mathlib

/-!
Shallow embedding of the `dep` deployment tool (src/main.rs, src/dockerfile.rs,
src/config.rs) and proofs about its compose-manifest parsing, catalog
derivation, manifest rewriting and build/push/deploy orchestration.

External effects (process spawning, the filesystem, git) are modelled as
explicit parameters: an oracle `Event → Bool` gives each spawned command's
exit status, and file contents arrive as already-decoded YAML values.
-/

namespace Dep

/-- YAML values as exposed by the `serde_yaml::Value` type used in
`transform_docker_compose`: scalars, sequences, and mappings (association
lists of key/value pairs, keys unique, insertion order preserved, as in the
`IndexMap` backing `serde_yaml::Mapping`). -/
inductive Yaml where
  | str : String → Yaml
  | num : Int → Yaml
  | bool : Bool → Yaml
  | null : Yaml
  | seq : List Yaml → Yaml
  | map : List (Yaml × Yaml) → Yaml
deriving Repr

/-- Whether a mapping key equals `Value::String s`: `serde_yaml` value
equality against a string value holds exactly for an equal string value. -/
def keyIs (k : Yaml) (s : String) : Bool :=
  match k with
  | .str t => t == s
  | _ => false

/-- First value stored under string key `s` in a mapping's entry list
(`Mapping::get` with a string index). -/
def lookupStr (es : List (Yaml × Yaml)) (s : String) : Option Yaml :=
  match es with
  | [] => none
  | (k, v) :: rest => if keyIs k s then some v else lookupStr rest s

/-- `Value::get` with a string index: a lookup on mappings, `None` on every
other value shape. -/
def Yaml.get (v : Yaml) (s : String) : Option Yaml :=
  match v with
  | .map es => lookupStr es s
  | _ => none

/-- `Mapping::insert` (IndexMap semantics): an existing key keeps its
position and gets the new value; a fresh key is appended at the end. -/
def mapInsert (es : List (Yaml × Yaml)) (s : String) (v : Yaml) : List (Yaml × Yaml) :=
  match es with
  | [] => [(.str s, v)]
  | p :: rest => if keyIs p.1 s then (p.1, v) :: rest else p :: mapInsert rest s v

/-- `Mapping::remove` with a string key: drops the entry stored under it. -/
def mapRemove (es : List (Yaml × Yaml)) (s : String) : List (Yaml × Yaml) :=
  es.filter (fun p => !(keyIs p.1 s))

/-! ## Typed manifest model (src/dockerfile.rs) -/

/-- `DockerBuildAdvanced`. -/
structure DockerBuildAdvanced where
  context : String
  dockerfile : Option String
  target : Option String
deriving Repr, DecidableEq

/-- `DockerBuild`: the untagged union of a bare build-context string and the
structured descriptor. -/
inductive DockerBuild where
  | Str : String → DockerBuild
  | Advanced : DockerBuildAdvanced → DockerBuild
deriving Repr, DecidableEq

/-- `DockerService`. -/
structure DockerService where
  build : Option DockerBuild
  restart : Option String
deriving Repr, DecidableEq

/-- `DockerFile`: the service map. The Rust type is a `HashMap`; the list
records its entries (order is irrelevant after the catalog sort). -/
structure DockerFile where
  services : List (String × DockerService)
deriving Repr, DecidableEq

/-- `DockerContainer`: one catalog entry. -/
structure DockerContainer where
  name : String
  build_dir : String
  dockerfile : Option String
  target : Option String
deriving Repr, DecidableEq

/-! ## serde deserialization of the manifest (read_docker_compose) -/

/-- Deserializing `String`: succeeds only on a YAML string scalar. -/
def parseString (v : Yaml) : Option String :=
  match v with
  | .str s => some s
  | _ => none

/-- Deserializing an optional `String` field: absent or null gives `none`;
a present value must be a string scalar. -/
def parseOptStringField (es : List (Yaml × Yaml)) (k : String) : Option (Option String) :=
  match lookupStr es k with
  | none => some none
  | some .null => some none
  | some v => (parseString v).map some

/-- Deserializing `DockerBuildAdvanced`: a mapping with a required string
`context` and optional string `dockerfile` / `target`; unknown keys are
ignored (serde default). -/
def parseAdvanced (v : Yaml) : Option DockerBuildAdvanced :=
  match v with
  | .map es => do
    let ctxv ← lookupStr es "context"
    let context ← parseString ctxv
    let dockerfile ← parseOptStringField es "dockerfile"
    let target ← parseOptStringField es "target"
    pure ⟨context, dockerfile, target⟩
  | _ => none

/-- Deserializing the untagged `DockerBuild`: try the `Str` variant first,
then `Advanced`; fail when neither shape matches. -/
def parseDockerBuild (v : Yaml) : Option DockerBuild :=
  match parseString v with
  | some s => some (.Str s)
  | none => (parseAdvanced v).map .Advanced

/-- Deserializing `DockerService`: a mapping with optional `build` and
`restart` fields; a malformed present `build` fails the service. -/
def parseDockerService (v : Yaml) : Option DockerService :=
  match v with
  | .map es => do
    let build ← match lookupStr es "build" with
      | none => some none
      | some .null => some none
      | some bv => (parseDockerBuild bv).map some
    let restart ← parseOptStringField es "restart"
    pure ⟨build, restart⟩
  | _ => none

/-- Deserializing the entries of the `services` mapping one by one: each
key must be a string and each value a well-formed service; the first
failing entry fails them all. -/
def parseServiceEntries : List (Yaml × Yaml) → Option (List (String × DockerService))
  | [] => some []
  | p :: rest => do
    let name ← parseString p.1
    let svc ← parseDockerService p.2
    let rest' ← parseServiceEntries rest
    pure ((name, svc) :: rest')

/-- Deserializing `DockerFile`: a mapping with a required `services`
mapping whose keys are strings; any failing entry fails the whole
document, exactly as `serde_yaml::from_reader` does in
`read_docker_compose`. -/
def parseDockerFile (v : Yaml) : Option DockerFile :=
  match v with
  | .map es => do
    let sv ← lookupStr es "services"
    match sv with
    | .map ses =>
      let services ← parseServiceEntries ses
      pure ⟨services⟩
    | _ => none
  | _ => none

/-! ## Catalog derivation (DockerContainer::from_docker_file) -/

/-- A restart-policy diagnostic printed to stderr. -/
inductive Diag where
  | noRestart : String → Diag
  | badRestart : String → String → Diag
deriving Repr, DecidableEq

/-- The service name a diagnostic is about. -/
def Diag.service : Diag → String
  | .noRestart s => s
  | .badRestart s _ => s

/-- The advisory restart check of `from_docker_file`: a missing policy or a
value other than `unless-stopped` / `always` yields a diagnostic. -/
def restartDiag (name : String) : Option String → Option Diag
  | none => some (.noRestart name)
  | some x => if x ≠ "unless-stopped" ∧ x ≠ "always" then some (.badRestart name x) else none

/-- The catalog entry built from one service's build field: a scalar gives
the context with no overrides; the structured form carries its optional
dockerfile and target. -/
def containerOf (name : String) : DockerBuild → DockerContainer
  | .Str s => ⟨name, s, none, none⟩
  | .Advanced a => ⟨name, a.context, a.dockerfile, a.target⟩

/-- `output.sort_by_key(|k| k.name.clone())`. -/
def sortByName (l : List DockerContainer) : List DockerContainer :=
  l.mergeSort (fun a b => a.name ≤ b.name)

/-- `DockerContainer::from_docker_file`: emit a restart diagnostic per
offending service, derive one catalog entry per service with a build field,
and sort the catalog by name. -/
def from_docker_file (file : DockerFile) : List Diag × List DockerContainer :=
  (file.services.filterMap (fun p => restartDiag p.1 p.2.restart),
   sortByName (file.services.filterMap (fun p => p.2.build.map (containerOf p.1))))

/-! ## Deployment configuration (src/config.rs) and git version (main.rs) -/

/-- `DepConfig` (deployment.yaml): paths are carried as strings. -/
structure DepConfig where
  name : String
  server : String
  registry : String
  additional_files : Option (List String)
  build : Option String
deriving Repr, DecidableEq

/-- Deserializing a list of strings (the `additionalFiles` paths). -/
def parseStringList : List Yaml → Option (List String)
  | [] => some []
  | x :: xs => do
    let s ← parseString x
    let rest ← parseStringList xs
    pure (s :: rest)

/-- Deserializing `DepConfig`: required string `name`, `server`,
`registry`; optional `additionalFiles` string list; optional `build`
string. -/
def parseDepConfig (v : Yaml) : Option DepConfig :=
  match v with
  | .map es => do
    let name ← (lookupStr es "name").bind parseString
    let server ← (lookupStr es "server").bind parseString
    let registry ← (lookupStr es "registry").bind parseString
    let additional ← match lookupStr es "additionalFiles" with
      | none => some none
      | some .null => some none
      | some (.seq xs) => (parseStringList xs).map some
      | some _ => none
    let build ← parseOptStringField es "build"
    pure ⟨name, server, registry, additional, build⟩
  | _ => none

/-- What the two git subprocesses in `git_version` report: the stdout of
`git log -1 --format=%as` and of `git describe --always --dirty`. -/
structure GitState where
  logDate : String
  describe : String
deriving Repr, DecidableEq

/-- `git_version`: trim both outputs and join them with a dash. -/
def git_version (gs : GitState) : String :=
  gs.logDate.trim ++ "-" ++ gs.describe.trim

/-! ## BuildContext and the manifest rewrite (main.rs) -/

/-- `BuildContext`. -/
structure BuildContext where
  registry : String
  version : String
  config : DepConfig
  pull : Bool
  containers : List DockerContainer
deriving Repr

/-- `BuildContext::new`: the registry is copied out of the config. -/
def BuildContext.new (version : String) (config : DepConfig) (pull : Bool)
    (containers : List DockerContainer) : BuildContext :=
  ⟨config.registry, version, config, pull, containers⟩

/-- `BuildContext::image`: the `registry/name:version` reference. -/
def BuildContext.image (ctx : BuildContext) (c : DockerContainer) : String :=
  ctx.registry ++ "/" ++ c.name ++ ":" ++ ctx.version

/-- How `transform_docker_compose` can fail: the missing/non-mapping
`services` context error; the `service is not a map` context error; and the
`container[0]` index panic when a build-carrying service has no catalog
entry (a panic aborts the process just as an error return does, before any
output exists). -/
inductive RewriteError where
  | noServices : RewriteError
  | serviceNotMap : RewriteError
  | missingContainer : String → RewriteError
deriving Repr, DecidableEq

/-- The loop body of `transform_docker_compose` for one `services` entry:
a service without a `build` key, or one whose key is not a string value, is
left untouched; otherwise the first catalog entry with the service's name
supplies the image reference that is inserted before `build` is removed,
and an empty lookup is the `container[0]` panic. -/
def transformService (ctx : BuildContext) (k v : Yaml) : Except RewriteError Yaml :=
  match v.get "build" with
  | none => .ok v
  | some _ =>
    match k with
    | .str name =>
      match v with
      | .map es =>
        match ctx.containers.filter (fun c => c.name == name) with
        | [] => .error (.missingContainer name)
        | c :: _ => .ok (.map (mapRemove (mapInsert es "image" (.str (ctx.image c))) "build"))
      | _ => .error .serviceNotMap
    | _ => .ok v

/-- The `services.iter_mut()` loop: each entry's value is rewritten in
place, so keys and their order are untouched; the first failing entry
aborts. -/
def transformServices (ctx : BuildContext) : List (Yaml × Yaml) → Except RewriteError (List (Yaml × Yaml))
  | [] => .ok []
  | (k, v) :: rest => do
    let v' ← transformService ctx k v
    let rest' ← transformServices ctx rest
    pure ((k, v') :: rest')

/-- Replace the value stored under string key `s` at its position
(the effect of mutating through `get_mut`). -/
def mapSetValue (es : List (Yaml × Yaml)) (s : String) (v : Yaml) : List (Yaml × Yaml) :=
  es.map (fun p => if keyIs p.1 s then (p.1, v) else p)

/-- `BuildContext::transform_docker_compose` on an already-decoded
document: require a mapping `services` value, rewrite each service entry,
and re-serialize the whole document with the mutated `services` in place. -/
def BuildContext.transform_docker_compose (ctx : BuildContext) (input : Yaml) :
    Except RewriteError Yaml :=
  match input with
  | .map topEs =>
    match lookupStr topEs "services" with
    | some (.map svcEs) => do
      let svcEs' ← transformServices ctx svcEs
      pure (.map (mapSetValue topEs "services" (.map svcEs')))
    | _ => .error .noServices
  | _ => .error .noServices

/-! ## Orchestration as an event trace (main.rs) -/

/-- One external command spawned by the pipeline, with the arguments the
code passes it. `stage` is the local write of the rewritten manifest into
the rsync staging directory. -/
inductive Event where
  | runScript : String → Event
  | dockerBuild (version : String) (pull : Bool) (buildDir : String)
      (dockerfile : Option String) (img : String) : Event
  | dockerPush : String → Event
  | stage (path : String) (doc : Yaml) : Event
  | rsync (paths : List String) (dest : String) : Event
  | ssh (server : String) (cmd : String) : Event
deriving Repr

/-- Exit-status oracle for external commands: `true` is a zero exit. -/
abbrev Exec := Event → Bool

/-- A pipeline step's observable outcome: the commands it ran, and whether
it succeeded. -/
abbrev Outcome := List Event × Bool

/-- Run one command and report its status. -/
def emit (exec : Exec) (e : Event) : Outcome := ([e], exec e)

/-- Sequencing with `?`-propagation: a failed first step short-circuits and
the second step never runs. -/
def andThen (a : Outcome) (b : Outcome) : Outcome :=
  if a.2 then (a.1 ++ b.1, b.2) else a

/-- The strict-mode shell header prepended to the configured build script. -/
def scriptHeader : String :=
  "\nset -o errexit\nset -o nounset\nset -o pipefail"

/-- `BuildContext::run_build_script`: nothing to do without a configured
script; otherwise bash runs the header plus the script body. -/
def BuildContext.run_build_script (ctx : BuildContext) (exec : Exec) : Outcome :=
  match ctx.config.build with
  | none => ([], true)
  | some s => emit exec (.runScript (scriptHeader ++ "\n" ++ s))

/-- The `docker build` invocation of `BuildContext::build` for one
container: version build-arg, optional `--pull`, the build context dir, the
optional dockerfile override, and the `-t` image tag. -/
def buildEvent (ctx : BuildContext) (c : DockerContainer) : Event :=
  .dockerBuild ctx.version ctx.pull c.build_dir c.dockerfile (ctx.image c)

/-- The sequential build loop of `build_all` over a container list. -/
def buildList (ctx : BuildContext) (exec : Exec) : List DockerContainer → Outcome
  | [] => ([], true)
  | c :: cs => andThen (emit exec (buildEvent ctx c)) (buildList ctx exec cs)

/-- `BuildContext::build_all`: run the build script, then build every
container in catalog order, stopping at the first failure. -/
def BuildContext.build_all (ctx : BuildContext) (exec : Exec) : Outcome :=
  andThen (ctx.run_build_script exec) (buildList ctx exec ctx.containers)

/-- The sequential `docker push` loop of `push_containers`. -/
def pushList (ctx : BuildContext) (exec : Exec) : List DockerContainer → Outcome
  | [] => ([], true)
  | c :: cs => andThen (emit exec (.dockerPush (ctx.image c))) (pushList ctx exec cs)

/-- `BuildContext::push_containers`: `build_all` first, then push each
image, aborting on the first failure. -/
def BuildContext.push_containers (ctx : BuildContext) (exec : Exec) : Outcome :=
  andThen (ctx.build_all exec) (pushList ctx exec ctx.containers)

/-- `BuildContext::remote_dir`: the `server:name` rsync destination. -/
def BuildContext.remote_dir (ctx : BuildContext) : String :=
  ctx.config.server ++ ":" ++ ctx.config.name

/-- The rsync source paths: the staging directory (with its trailing
slash), then every configured additional file. -/
def rsyncPaths (ctx : BuildContext) (tmpDir : String) : List String :=
  (tmpDir ++ "/") :: (ctx.config.additional_files.getD [])

/-- `BuildContext::push_files`: rewrite the manifest (a rewrite failure
aborts before anything is staged or transferred), stage it in the transient
directory, and rsync the staging directory plus additional files to the
remote dir. -/
def BuildContext.push_files (ctx : BuildContext) (exec : Exec) (input : Yaml)
    (tmpDir : String) : Outcome :=
  match ctx.transform_docker_compose input with
  | .error _ => ([], false)
  | .ok doc =>
    andThen (emit exec (.stage (tmpDir ++ "/docker-compose.yaml") doc))
      (emit exec (.rsync (rsyncPaths ctx tmpDir) ctx.remote_dir))

/-- `BuildContext::push`: containers then files, first failure aborts. -/
def BuildContext.push (ctx : BuildContext) (exec : Exec) (input : Yaml)
    (tmpDir : String) : Outcome :=
  andThen (ctx.push_containers exec) (ctx.push_files exec input tmpDir)

/-- The remote `docker compose pull` command of `deploy`. -/
def pullEvent (ctx : BuildContext) : Event :=
  .ssh ctx.config.server ("cd " ++ ctx.config.name ++ " && docker compose pull")

/-- The remote `docker compose up -d` command of `deploy`. -/
def upEvent (ctx : BuildContext) : Event :=
  .ssh ctx.config.server ("cd " ++ ctx.config.name ++ " && docker compose up -d")

/-- `BuildContext::deploy`: the full push, then the optional remote pull
(gated on the `pull` flag), then the unconditional remote activate; each
non-zero exit aborts what remains. -/
def BuildContext.deploy (ctx : BuildContext) (exec : Exec) (input : Yaml)
    (tmpDir : String) : Outcome :=
  andThen (ctx.push exec input tmpDir)
    (andThen (if ctx.pull then emit exec (pullEvent ctx) else ([], true))
      (emit exec (upEvent ctx)))

/-! ## The command dispatcher (fn main) -/

/-- The CLI subcommands. -/
inductive CliCommand where
  | build : CliCommand
  | push : Bool → CliCommand
  | deploy : CliCommand
  | version : CliCommand
  | compose : CliCommand
  | init : CliCommand
deriving Repr, DecidableEq

/-- `fn main` after argument parsing: `init` short-circuits; every other
subcommand first reads and parses `docker-compose.yaml`, then
`deployment.yaml`, then resolves the git version — any failure of those
exits non-zero with nothing run — and only then dispatches. A `none` file
argument is a missing/unreadable file; a present file that fails its typed
parse is structurally invalid. -/
def mainRun (pull : Bool) (cmd : CliCommand) (composeYaml : Option Yaml)
    (depYaml : Option Yaml) (gs : Option GitState) (exec : Exec)
    (tmpDir : String) : Outcome :=
  if cmd = .init then ([], true)
  else
    match composeYaml with
    | none => ([], false)
    | some cy =>
      match parseDockerFile cy with
      | none => ([], false)
      | some file =>
        match depYaml with
        | none => ([], false)
        | some dy =>
          match parseDepConfig dy with
          | none => ([], false)
          | some dep =>
            match gs with
            | none => ([], false)
            | some g =>
              let ctx := BuildContext.new (git_version g) dep pull
                (from_docker_file file).2
              match cmd with
              | .version => ([], true)
              | .build => ctx.build_all exec
              | .push no_docker =>
                if no_docker then ctx.push_files exec cy tmpDir
                else ctx.push exec cy tmpDir
              | .compose =>
                match ctx.transform_docker_compose cy with
                | .ok _ => ([], true)
                | .error _ => ([], false)
              | .deploy => ctx.deploy exec cy tmpDir
              | .init => ([], true)

/-! ## Observation helpers used by the statements -/

/-- The first catalog entry carrying a service name — what `container[0]`
of the filtered vector denotes when it exists. -/
def firstContainer (ctx : BuildContext) (s : String) : Option DockerContainer :=
  (ctx.containers.filter (fun c => c.name == s)).head?

/-- Whether an event is a `docker build` invocation. -/
def isBuildEvent : Event → Bool
  | .dockerBuild _ _ _ _ _ => true
  | _ => false

/-- Whether an event is a `docker push` invocation. -/
def isPushEvent : Event → Bool
  | .dockerPush _ => true
  | _ => false

/-- The image references an event mentions. -/
def eventImages : Event → List String
  | .dockerBuild _ _ _ _ img => [img]
  | .dockerPush img => [img]
  | _ => []

/-- The `VERSION` build argument an event passes, when it passes one. -/
def eventVersionArgs : Event → List String
  | .dockerBuild v _ _ _ _ => [v]
  | _ => []

/-- The `services` mapping of a document, when the document is a mapping
with a mapping-valued `services` key — the shape
`transform_docker_compose` requires. -/
def servicesOf (input : Yaml) : Option (List (Yaml × Yaml)) :=
  match input with
  | .map topEs =>
    match lookupStr topEs "services" with
    | some (.map svcEs) => some svcEs
    | _ => none
  | _ => none

/-- Membership of an entry in a mapping value. -/
def entryMem (k v : Yaml) (m : Yaml) : Prop :=
  match m with
  | .map es => (k, v) ∈ es
  | _ => False

/-- Rewrite every service's restart policy with `g` (name and old policy
in hand), leaving names and build fields alone. -/
def setRestarts (g : String → Option String → Option String) (f : DockerFile) : DockerFile :=
  ⟨f.services.map (fun p => (p.1, ⟨p.2.build, g p.1 p.2.restart⟩))⟩

/-- The `BuildContext` that `fn main` constructs once the manifest, the
config and the git state are in hand. -/
def mainCtx (pull : Bool) (f : DockerFile) (d : DepConfig) (g : GitState) : BuildContext :=
  BuildContext.new (git_version g) d pull (from_docker_file f).2

/-! ## Concrete inputs used to instantiate the theorems below -/

/-- A buildable service of the worked example in the spec. -/
def wSvcApi : DockerService := ⟨some (.Str "./api"), some "always"⟩

/-- A non-buildable service. -/
def wSvcCache : DockerService := ⟨none, some "unless-stopped"⟩

/-- A service with a structured build descriptor and no restart policy. -/
def wSvcWeb : DockerService :=
  ⟨some (.Advanced ⟨"./web", some "web.Dockerfile", some "prod"⟩), none⟩

/-- A two-service manifest. -/
def wFile : DockerFile := ⟨[("api", wSvcApi), ("cache", wSvcCache)]⟩

/-- A three-service manifest with a restart-policy offender. -/
def wFile8 : DockerFile := ⟨[("api", wSvcApi), ("web", wSvcWeb), ("cache", wSvcCache)]⟩

/-- A deployment configuration without a build script. -/
def wDep : DepConfig := ⟨"myapp", "myserver", "reg.example.com", some ["extra.txt"], none⟩

/-- A git state as the two subprocesses would report it. -/
def wGit : GitState := ⟨"2026-01-01\n", "abc123\n"⟩

/-- Three containers for the short-circuit scenario. -/
def wC5a : DockerContainer := ⟨"a", "./a", none, none⟩

def wC5b : DockerContainer := ⟨"b", "./b", none, none⟩

def wC5c : DockerContainer := ⟨"c", "./c", none, none⟩

/-- A context holding the three containers. -/
def wCtx5 : BuildContext := ⟨"reg", "v1", wDep, false, [wC5a, wC5b, wC5c]⟩

/-- An exit oracle where only the build of `./b` fails. -/
def wExec5 : Exec := fun e =>
  match e with
  | .dockerBuild _ _ "./b" _ _ => false
  | _ => true

/-- An exit oracle where every command succeeds. -/
def wExecOk : Exec := fun _ => true

/-- The `services` entries of the example compose document. -/
def wSvc2 : List (Yaml × Yaml) :=
  [(.str "api", .map [(.str "build", .str "./api"), (.str "restart", .str "always")]),
   (.str "cache", .map [(.str "image", .str "redis:7")])]

/-- The example compose document. -/
def wTop2 : List (Yaml × Yaml) := [(.str "services", .map wSvc2)]

/-- A context whose catalog matches the example document. -/
def wCtx2 : BuildContext := ⟨"reg", "v1", wDep, false, [⟨"api", "./api", none, none⟩]⟩

/-- A context with an empty catalog, mismatching the example document. -/
def wCtx3 : BuildContext := ⟨"reg", "v1", wDep, false, []⟩

/-- A compose document whose `services` value is an empty mapping. -/
def wInput9 : Yaml := .map [(.str "services", .map [])]

/-- A build value matching neither the scalar nor the structured shape. -/
def badBuildYaml : Yaml := .seq [.str "./broken"]

/-- A compose document where service `broken` has the malformed build and
service `good` is perfectly well-formed. -/
def badComposeYaml : Yaml :=
  .map [(.str "services", .map
    [(.str "broken", .map [(.str "build", badBuildYaml), (.str "restart", .str "always")]),
     (.str "good", .map [(.str "build", .str "./good"), (.str "restart", .str "always")])])]

/-- The well-formed sibling service of the malformed one, alone. -/
def goodServiceYaml : Yaml :=
  .map [(.str "build", .str "./good"), (.str "restart", .str "always")]

/-- The example compose document as a `Yaml` value (parses to `wFile`). -/
def wComposeYaml : Yaml :=
  .map [(.str "services", .map
    [(.str "api", .map [(.str "build", .str "./api"), (.str "restart", .str "always")]),
     (.str "cache", .map [(.str "restart", .str "unless-stopped")])])]

/-- A compose document with a single non-buildable service. -/
def wComposeNB : Yaml :=
  .map [(.str "services", .map
    [(.str "cache", .map [(.str "restart", .str "unless-stopped")])])]

/-- The typed parse of `wComposeNB`. -/
def wFileNB : DockerFile := ⟨[("cache", wSvcCache)]⟩

/-- The example deployment configuration as a `Yaml` value. -/
def wDepYaml : Yaml :=
  .map [(.str "name", .str "myapp"), (.str "server", .str "myserver"),
        (.str "registry", .str "reg.example.com"),
        (.str "additionalFiles", .seq [.str "extra.txt"])]

/-- The rewritten form of the example document under `wCtx2`. -/
def wOut2 : Yaml :=
  .map [(.str "services", .map
    [(.str "api", .map [(.str "restart", .str "always"),
                        (.str "image", .str "reg/api:v1")]),
     (.str "cache", .map [(.str "image", .str "redis:7")])])]

/-! ## Lemmas on the outcome combinators -/

theorem andThen_of_ok {a b : Outcome} (h : a.2 = true) : andThen a b = (a.1 ++ b.1, b.2) := by
  simp [andThen, h]

theorem andThen_of_fail {a b : Outcome} (h : a.2 = false) : andThen a b = a := by
  simp [andThen, h]

theorem mem_andThen {e : Event} {a b : Outcome} (h : e ∈ (andThen a b).1) :
    e ∈ a.1 ∨ e ∈ b.1 := by
  by_cases ha : a.2 = true
  · rw [andThen_of_ok ha] at h
    exact List.mem_append.mp h
  · rw [andThen_of_fail (Bool.not_eq_true _ ▸ ha)] at h
    exact Or.inl h

theorem buildList_mem {ctx : BuildContext} {exec : Exec} :
    ∀ {l : List DockerContainer} {e : Event},
      e ∈ (buildList ctx exec l).1 → ∃ c ∈ l, e = buildEvent ctx c := by
  intro l
  induction l with
  | nil => intro e h; simp [buildList] at h
  | cons c cs ih =>
    intro e h
    rcases mem_andThen h with h' | h'
    · simp only [emit, List.mem_singleton] at h'
      exact ⟨c, List.mem_cons_self c cs, h'⟩
    · obtain ⟨c', hc', he⟩ := ih h'
      exact ⟨c', List.mem_cons_of_mem c hc', he⟩

theorem pushList_mem {ctx : BuildContext} {exec : Exec} :
    ∀ {l : List DockerContainer} {e : Event},
      e ∈ (pushList ctx exec l).1 → ∃ c ∈ l, e = .dockerPush (ctx.image c) := by
  intro l
  induction l with
  | nil => intro e h; simp [pushList] at h
  | cons c cs ih =>
    intro e h
    rcases mem_andThen h with h' | h'
    · simp only [emit, List.mem_singleton] at h'
      exact ⟨c, List.mem_cons_self c cs, h'⟩
    · obtain ⟨c', hc', he⟩ := ih h'
      exact ⟨c', List.mem_cons_of_mem c hc', he⟩

theorem run_build_script_mem {ctx : BuildContext} {exec : Exec} {e : Event}
    (h : e ∈ (ctx.run_build_script exec).1) : ∃ s, e = .runScript s := by
  unfold BuildContext.run_build_script at h
  cases hb : ctx.config.build with
  | none => rw [hb] at h; simp at h
  | some s =>
    rw [hb] at h
    simp only [emit, List.mem_singleton] at h
    exact ⟨scriptHeader ++ "\n" ++ s, h⟩

theorem build_all_mem {ctx : BuildContext} {exec : Exec} {e : Event}
    (h : e ∈ (ctx.build_all exec).1) :
    (∃ s, e = .runScript s) ∨ ∃ c ∈ ctx.containers, e = buildEvent ctx c := by
  rcases mem_andThen h with h' | h'
  · exact Or.inl (run_build_script_mem h')
  · exact Or.inr (buildList_mem h')

theorem push_containers_mem {ctx : BuildContext} {exec : Exec} {e : Event}
    (h : e ∈ (ctx.push_containers exec).1) :
    (∃ s, e = .runScript s) ∨ (∃ c ∈ ctx.containers, e = buildEvent ctx c)
    ∨ ∃ c ∈ ctx.containers, e = .dockerPush (ctx.image c) := by
  rcases mem_andThen h with h' | h'
  · rcases build_all_mem h' with h'' | h''
    · exact Or.inl h''
    · exact Or.inr (Or.inl h'')
  · exact Or.inr (Or.inr (pushList_mem h'))

theorem push_files_mem {ctx : BuildContext} {exec : Exec} {input : Yaml} {tmpDir : String}
    {e : Event} (h : e ∈ (ctx.push_files exec input tmpDir).1) :
    (∃ p doc, e = .stage p doc) ∨ ∃ ps dest, e = .rsync ps dest := by
  unfold BuildContext.push_files at h
  cases ht : ctx.transform_docker_compose input with
  | error err => rw [ht] at h; simp at h
  | ok doc =>
    rw [ht] at h
    rcases mem_andThen h with h' | h'
    · simp only [emit, List.mem_singleton] at h'
      exact Or.inl ⟨_, _, h'⟩
    · simp only [emit, List.mem_singleton] at h'
      exact Or.inr ⟨_, _, h'⟩

theorem push_mem {ctx : BuildContext} {exec : Exec} {input : Yaml} {tmpDir : String}
    {e : Event} (h : e ∈ (ctx.push exec input tmpDir).1) :
    e ∈ (ctx.push_containers exec).1 ∨ e ∈ (ctx.push_files exec input tmpDir).1 :=
  mem_andThen h

theorem deploy_mem {ctx : BuildContext} {exec : Exec} {input : Yaml} {tmpDir : String}
    {e : Event} (h : e ∈ (ctx.deploy exec input tmpDir).1) :
    e ∈ (ctx.push exec input tmpDir).1 ∨ e = pullEvent ctx ∨ e = upEvent ctx := by
  rcases mem_andThen h with h' | h'
  · exact Or.inl h'
  · rcases mem_andThen h' with h'' | h''
    · by_cases hp : ctx.pull = true
      · rw [hp] at h''; simp only [if_true, emit, List.mem_singleton] at h''
        exact Or.inr (Or.inl h'')
      · rw [if_neg hp] at h''; simp at h''
    · simp only [emit, List.mem_singleton] at h''
      exact Or.inr (Or.inr h'')

/-! ## Lemmas on the catalog sort -/

theorem sortByName_perm (l : List DockerContainer) : (sortByName l).Perm l :=
  List.mergeSort_perm l _

theorem sortByName_sorted (l : List DockerContainer) :
    (sortByName l).Pairwise (fun a b => a.name ≤ b.name) := by
  have h := @List.sorted_mergeSort DockerContainer
    (fun a b : DockerContainer => decide (a.name ≤ b.name))
    (fun a b c hab hbc => by
      simp only [decide_eq_true_eq] at hab hbc ⊢
      exact le_trans hab hbc)
    (fun a b => by
      simpa using le_total a.name b.name) l
  exact h.imp (fun hab => by simpa using hab)

theorem containerOf_name (n : String) (b : DockerBuild) : (containerOf n b).name = n := by
  cases b <;> rfl

theorem catalogBase_map_name (l : List (String × DockerService)) :
    ((l.filterMap (fun p => p.2.build.map (containerOf p.1))).map (fun c => c.name))
      = (l.filter (fun p => p.2.build.isSome)).map Prod.fst := by
  induction l with
  | nil => rfl
  | cons p ps ih =>
    cases hb : p.2.build with
    | none => simpa [List.filterMap_cons, List.filter_cons, hb] using ih
    | some b =>
      simpa [List.filterMap_cons, List.filter_cons, hb, containerOf_name] using ih

/-- C1: a manifest with `N` services of which `M` have a build field yields
a catalog of exactly `M` entries — one per buildable service, carrying that
service's name, context path, optional build-file override and optional
target — sorted strictly ascending by name (service names are unique, the
`HashMap` key invariant). -/
theorem claim_catalog_derivation (f : DockerFile)
    (hnd : (f.services.map Prod.fst).Nodup) :
    ((from_docker_file f).2).length
        = (f.services.filter (fun p => p.2.build.isSome)).length
    ∧ ((from_docker_file f).2).Pairwise (fun a b => a.name < b.name)
    ∧ (∀ c ∈ (from_docker_file f).2,
        ∃ p ∈ f.services, ∃ b, p.2.build = some b ∧ c = containerOf p.1 b)
    ∧ (∀ p ∈ f.services, ∀ b, p.2.build = some b →
        containerOf p.1 b ∈ (from_docker_file f).2) := by
  have hcat : (from_docker_file f).2
      = sortByName (f.services.filterMap (fun p => p.2.build.map (containerOf p.1))) := rfl
  have hperm := sortByName_perm (f.services.filterMap (fun p => p.2.build.map (containerOf p.1)))
  refine ⟨?_, ?_, ?_, ?_⟩
  · rw [hcat, hperm.length_eq]
    have := congrArg List.length
      (catalogBase_map_name f.services)
    simpa using this
  · have hsorted := sortByName_sorted
      (f.services.filterMap (fun p => p.2.build.map (containerOf p.1)))
    have h1 : ((f.services.filterMap
        (fun p => p.2.build.map (containerOf p.1))).map (fun c => c.name)).Nodup := by
      rw [catalogBase_map_name]
      exact hnd.sublist ((f.services.filter_sublist).map Prod.fst)
    have hnodup : ((sortByName (f.services.filterMap
        (fun p => p.2.build.map (containerOf p.1)))).map (fun c => c.name)).Nodup :=
      ((hperm.map (fun c => c.name)).nodup_iff).mpr h1
    have hne := List.pairwise_map.mp hnodup
    rw [hcat]
    exact (hsorted.and hne).imp (fun h => lt_of_le_of_ne h.1 h.2)
  · intro c hc
    rw [hcat] at hc
    have := hperm.mem_iff.mp hc
    obtain ⟨p, hp, hfp⟩ := List.mem_filterMap.mp this
    obtain ⟨b, hb, hcb⟩ := Option.map_eq_some'.mp hfp
    exact ⟨p, hp, b, hb, hcb.symm⟩
  · intro p hp b hb
    rw [hcat]
    refine hperm.mem_iff.mpr (List.mem_filterMap.mpr ⟨p, hp, ?_⟩)
    rw [hb]
    rfl

/-! ## Short-circuiting of the build loop -/

theorem buildList_fail {ctx : BuildContext} {exec : Exec} :
    ∀ (l : List DockerContainer) (i : Nat) (hi : i < l.length),
      (∀ j (hj : j < i), exec (buildEvent ctx (l.get ⟨j, hj.trans hi⟩)) = true) →
      exec (buildEvent ctx (l.get ⟨i, hi⟩)) = false →
      buildList ctx exec l = ((l.take (i + 1)).map (buildEvent ctx), false) := by
  intro l
  induction l with
  | nil => intro i hi; exact absurd hi (by simp)
  | cons c cs ih =>
    intro i hi hpre hfail
    cases i with
    | zero =>
      have hf : exec (buildEvent ctx c) = false := hfail
      simp [buildList, emit, andThen, hf]
    | succ i' =>
      have hc : exec (buildEvent ctx c) = true := hpre 0 (Nat.succ_pos i')
      have hi' : i' < cs.length := Nat.lt_of_succ_lt_succ hi
      have hpre' : ∀ j (hj : j < i'),
          exec (buildEvent ctx (cs.get ⟨j, hj.trans hi'⟩)) = true := by
        intro j hj
        exact hpre (j + 1) (Nat.succ_lt_succ hj)
      have hfail' : exec (buildEvent ctx (cs.get ⟨i', hi'⟩)) = false := hfail
      have hrec := ih i' hi' hpre' hfail'
      simp [buildList, emit, andThen, hc, hrec]

/-- C5: if building a container fails, `build_all` runs no later build —
its trace is the script trace plus the builds up to and including the
failing one — and `push_containers` performs no push after the failed
`build_all`: its outcome is exactly the failed `build_all` outcome, whose
trace holds no push event. -/
theorem claim_build_short_circuit (ctx : BuildContext) (exec : Exec) (i : Nat)
    (hi : i < ctx.containers.length)
    (hscript : (ctx.run_build_script exec).2 = true)
    (hpre : ∀ j (hj : j < i),
      exec (buildEvent ctx (ctx.containers.get ⟨j, hj.trans hi⟩)) = true)
    (hfail : exec (buildEvent ctx (ctx.containers.get ⟨i, hi⟩)) = false) :
    ctx.build_all exec
      = ((ctx.run_build_script exec).1
          ++ (ctx.containers.take (i + 1)).map (buildEvent ctx), false)
    ∧ ctx.push_containers exec = ctx.build_all exec
    ∧ (∀ e ∈ (ctx.push_containers exec).1, isPushEvent e = false)
    ∧ (∀ e ∈ (ctx.push_containers exec).1,
        (∃ s, e = .runScript s)
        ∨ ∃ c ∈ ctx.containers.take (i + 1), e = buildEvent ctx c) := by
  have hbl := buildList_fail ctx.containers i hi hpre hfail
  have hba : ctx.build_all exec
      = ((ctx.run_build_script exec).1
          ++ (ctx.containers.take (i + 1)).map (buildEvent ctx), false) := by
    unfold BuildContext.build_all
    rw [andThen_of_ok hscript, hbl]
  have hpc : ctx.push_containers exec = ctx.build_all exec := by
    unfold BuildContext.push_containers
    exact andThen_of_fail (by rw [hba])
  refine ⟨hba, hpc, ?_, ?_⟩
  · intro e he
    rw [hpc, hba] at he
    rcases List.mem_append.mp he with h' | h'
    · obtain ⟨s, rfl⟩ := run_build_script_mem h'
      rfl
    · obtain ⟨c, _, rfl⟩ := List.mem_map.mp h'
      rfl
  · intro e he
    rw [hpc, hba] at he
    rcases List.mem_append.mp he with h' | h'
    · exact Or.inl (run_build_script_mem h')
    · obtain ⟨c, hc, rfl⟩ := List.mem_map.mp h'
      exact Or.inr ⟨c, hc, rfl⟩

/-- C5 witness: with the build of `./b` failing, `build_all` over the
catalog `[a, b, c]` runs the builds of `a` and `b` only and fails, and
`push_containers` adds nothing to that. -/
theorem claim_build_short_circuit_witness :
    wCtx5.build_all wExec5
      = ((wCtx5.run_build_script wExec5).1
          ++ (wCtx5.containers.take 2).map (buildEvent wCtx5), false)
    ∧ wCtx5.push_containers wExec5 = wCtx5.build_all wExec5 := by
  have h := claim_build_short_circuit wCtx5 wExec5 1 (by decide)
    (by rfl)
    (by
      intro j hj
      have hj0 : j = 0 := Nat.lt_one_iff.mp hj
      subst hj0
      rfl)
    (by rfl)
  exact ⟨h.1, h.2.1⟩

/-! ## Restart-policy validation is advisory -/

theorem setRestarts_catalog (g : String → Option String → Option String) (f : DockerFile) :
    (from_docker_file (setRestarts g f)).2 = (from_docker_file f).2 := by
  show sortByName ((f.services.map _).filterMap _) = _
  rw [List.filterMap_map]
  rfl

/-- C8: for a service with a build descriptor whose restart policy is
missing or outside `{unless-stopped, always}`, `from_docker_file` emits a
diagnostic naming that service, still places the service in the catalog,
and the catalog never depends on restart policies at all; the derivation is
total, so validation can neither abort parsing nor change the exit code. -/
theorem claim_restart_advisory (f : DockerFile) (name : String) (svc : DockerService)
    (b : DockerBuild) (hmem : (name, svc) ∈ f.services) (hb : svc.build = some b)
    (hbad : svc.restart = none
      ∨ ∃ x, svc.restart = some x ∧ x ≠ "unless-stopped" ∧ x ≠ "always") :
    (∃ d ∈ (from_docker_file f).1, d.service = name)
    ∧ containerOf name b ∈ (from_docker_file f).2
    ∧ ∀ g : String → Option String → Option String,
        (from_docker_file (setRestarts g f)).2 = (from_docker_file f).2 := by
  refine ⟨?_, ?_, fun g => setRestarts_catalog g f⟩
  · have hd : ∃ d, restartDiag name svc.restart = some d ∧ d.service = name := by
      rcases hbad with h | ⟨x, hx, hx1, hx2⟩
      · rw [h]; exact ⟨.noRestart name, rfl, rfl⟩
      · rw [hx]
        exact ⟨.badRestart name x, by simp [restartDiag, hx1, hx2], rfl⟩
    obtain ⟨d, hd1, hd2⟩ := hd
    exact ⟨d, List.mem_filterMap.mpr ⟨(name, svc), hmem, hd1⟩, hd2⟩
  · have hbase : containerOf name b
        ∈ f.services.filterMap (fun p => p.2.build.map (containerOf p.1)) :=
      List.mem_filterMap.mpr ⟨(name, svc), hmem, by rw [hb]; rfl⟩
    exact (sortByName_perm _).mem_iff.mpr hbase

/-- C8 witness: in `wFile8`, service `web` has a structured build
descriptor and no restart policy; it is diagnosed yet kept in the
catalog. -/
theorem claim_restart_advisory_witness :
    (∃ d ∈ (from_docker_file wFile8).1, d.service = "web")
    ∧ containerOf "web" (.Advanced ⟨"./web", some "web.Dockerfile", some "prod"⟩)
        ∈ (from_docker_file wFile8).2 := by
  have h := claim_restart_advisory wFile8 "web" wSvcWeb
    (.Advanced ⟨"./web", some "web.Dockerfile", some "prod"⟩)
    (by simp [wFile8])
    (by rfl)
    (Or.inl rfl)
  exact ⟨h.1, h.2.1⟩

/-! ## Deploy sequencing -/

/-- C9: deploy performs the full push first; then, only under the
pull-before-build flag, the remote pull command; then unconditionally the
remote activate command. A failing remote pull aborts with no activate and
no further event (no rollback); the activate command's exit status is the
deploy outcome. -/
theorem claim_deploy_sequence (ctx : BuildContext) (exec : Exec) (input : Yaml)
    (tmpDir : String) (hpush : (ctx.push exec input tmpDir).2 = true) :
    (ctx.pull = true → exec (pullEvent ctx) = false →
      ctx.deploy exec input tmpDir
        = ((ctx.push exec input tmpDir).1 ++ [pullEvent ctx], false))
    ∧ (ctx.pull = true → exec (pullEvent ctx) = true →
      ctx.deploy exec input tmpDir
        = ((ctx.push exec input tmpDir).1 ++ [pullEvent ctx, upEvent ctx],
           exec (upEvent ctx)))
    ∧ (ctx.pull = false →
      ctx.deploy exec input tmpDir
        = ((ctx.push exec input tmpDir).1 ++ [upEvent ctx], exec (upEvent ctx))) := by
  unfold BuildContext.deploy
  refine ⟨?_, ?_, ?_⟩
  · intro hp hpe
    rw [hp, andThen_of_ok hpush]
    simp [emit, andThen, hpe]
  · intro hp hpe
    rw [hp, andThen_of_ok hpush]
    simp [emit, andThen, hpe]
  · intro hp
    rw [hp, andThen_of_ok hpush]
    simp [emit, andThen]

/-- C9 witness: with an all-success oracle, an empty catalog and the empty
`services` document, deploy is the push trace followed by the activate
command. -/
theorem claim_deploy_sequence_witness :
    wCtx3.deploy wExecOk wInput9 "/tmp/stage"
      = ((wCtx3.push wExecOk wInput9 "/tmp/stage").1 ++ [upEvent wCtx3], wExecOk (upEvent wCtx3)) :=
  (claim_deploy_sequence wCtx3 wExecOk wInput9 "/tmp/stage" (by rfl)).2.2 (by rfl)

/-! ## Lemmas on the mapping operations -/

theorem keyIs_iff {k : Yaml} {s : String} : keyIs k s = true ↔ k = .str s := by
  cases k <;> simp [keyIs]

theorem lookupStr_mapRemove_self (es : List (Yaml × Yaml)) (s : String) :
    lookupStr (mapRemove es s) s = none := by
  induction es with
  | nil => rfl
  | cons p ps ih =>
    by_cases h : keyIs p.1 s = true
    · simpa [mapRemove, List.filter_cons, h] using ih
    · simp only [Bool.not_eq_true] at h
      simpa [mapRemove, List.filter_cons, lookupStr, h] using ih

theorem lookupStr_mapRemove_ne (es : List (Yaml × Yaml)) (s t : String) (h : t ≠ s) :
    lookupStr (mapRemove es s) t = lookupStr es t := by
  induction es with
  | nil => rfl
  | cons p ps ih =>
    by_cases h1 : keyIs p.1 s = true
    · have hk : p.1 = .str s := keyIs_iff.mp h1
      have h2 : keyIs p.1 t = false := by
        rw [hk]
        simp [keyIs]
        exact fun he => absurd he.symm h
      simp [mapRemove, List.filter_cons, h1, lookupStr, h2] at ih ⊢
      exact ih
    · simp only [Bool.not_eq_true] at h1
      by_cases h2 : keyIs p.1 t = true
      · simp [mapRemove, List.filter_cons, h1, lookupStr, h2]
      · simp only [Bool.not_eq_true] at h2
        simp [mapRemove, List.filter_cons, h1, lookupStr, h2] at ih ⊢
        exact ih

theorem lookupStr_mapInsert_self (es : List (Yaml × Yaml)) (s : String) (v : Yaml) :
    lookupStr (mapInsert es s v) s = some v := by
  induction es with
  | nil => simp [mapInsert, lookupStr, keyIs]
  | cons p ps ih =>
    by_cases h : keyIs p.1 s = true
    · simp [mapInsert, h, lookupStr]
    · simp only [Bool.not_eq_true] at h
      simpa [mapInsert, h, lookupStr] using ih

theorem lookupStr_mapInsert_ne (es : List (Yaml × Yaml)) (s t : String) (v : Yaml)
    (h : t ≠ s) :
    lookupStr (mapInsert es s v) t = lookupStr es t := by
  induction es with
  | nil =>
    have : keyIs (Yaml.str s) t = false := by
      simp [keyIs]
      exact fun he => absurd he.symm h
    simp [mapInsert, lookupStr, this]
  | cons p ps ih =>
    by_cases h1 : keyIs p.1 s = true
    · have hk : p.1 = .str s := keyIs_iff.mp h1
      have h2 : keyIs p.1 t = false := by
        rw [hk]
        simp [keyIs]
        exact fun he => absurd he.symm h
      simp [mapInsert, h1, lookupStr, h2]
    · simp only [Bool.not_eq_true] at h1
      by_cases h2 : keyIs p.1 t = true
      · simp [mapInsert, h1, lookupStr, h2]
      · simp only [Bool.not_eq_true] at h2
        simpa [mapInsert, h1, lookupStr, h2] using ih

theorem mem_mapRemove_iff {es : List (Yaml × Yaml)} {s : String} {k v : Yaml}
    (h : keyIs k s = false) :
    (k, v) ∈ mapRemove es s ↔ (k, v) ∈ es := by
  simp [mapRemove, List.mem_filter, h]

theorem mem_mapInsert_iff {es : List (Yaml × Yaml)} {s : String} {k v w : Yaml}
    (h : keyIs k s = false) :
    (k, v) ∈ mapInsert es s w ↔ (k, v) ∈ es := by
  induction es with
  | nil =>
    simp [mapInsert]
    intro he
    rw [he] at h
    simp [keyIs] at h
  | cons p ps ih =>
    by_cases h1 : keyIs p.1 s = true
    · have hk : p.1 = .str s := keyIs_iff.mp h1
      simp only [mapInsert, h1, if_true, List.mem_cons]
      constructor
      · intro hc
        rcases hc with hc | hc
        · exfalso
          have : k = .str s := by rw [← hk]; exact congrArg Prod.fst hc
          rw [this] at h
          simp [keyIs] at h
        · exact Or.inr hc
      · intro hc
        rcases hc with hc | hc
        · exfalso
          have : k = .str s := by rw [← hk]; exact congrArg Prod.fst (congrArg id hc)
          rw [this] at h
          simp [keyIs] at h
        · exact Or.inr hc
    · simp only [Bool.not_eq_true] at h1
      simp [mapInsert, h1, List.mem_cons, ih]

/-! ## Lemmas on the rewrite of one service -/

theorem transformService_ok_cases {ctx : BuildContext} {v v' : Yaml} {s : String}
    (hok : transformService ctx (.str s) v = .ok v') :
    (v.get "build" = none ∧ v' = v)
    ∨ (v.get "build" ≠ none
        ∧ ∃ c, firstContainer ctx s = some c
        ∧ v'.get "build" = none
        ∧ v'.get "image" = some (.str (ctx.image c))
        ∧ (∀ t : String, t ≠ "build" → t ≠ "image" → v'.get t = v.get t)
        ∧ (∀ k0 v0 : Yaml, keyIs k0 "build" = false → keyIs k0 "image" = false →
            (entryMem k0 v0 v' ↔ entryMem k0 v0 v))) := by
  cases hb : Yaml.get v "build" with
  | none =>
    left
    refine ⟨rfl, ?_⟩
    have heq : transformService ctx (.str s) v = .ok v := by
      simp [transformService, hb]
    rw [heq] at hok
    simpa using hok.symm
  | some bv =>
    right
    cases v with
    | map es =>
      cases hf : ctx.containers.filter (fun c => c.name == s) with
      | nil =>
        exfalso
        have heq : transformService ctx (.str s) (.map es)
            = .error (.missingContainer s) := by
          simp [transformService, hb, hf]
        rw [heq] at hok
        exact absurd hok (by simp)
      | cons c cs =>
        have heq : transformService ctx (.str s) (.map es)
            = .ok (.map (mapRemove (mapInsert es "image" (.str (ctx.image c))) "build")) := by
          simp [transformService, hb, hf]
        rw [heq] at hok
        have hv' : v' = .map (mapRemove (mapInsert es "image" (.str (ctx.image c))) "build") := by
          simpa using hok.symm
        refine ⟨by simp [hb], c, by simp [firstContainer, hf], ?_, ?_, ?_, ?_⟩
        · rw [hv']
          exact lookupStr_mapRemove_self _ _
        · rw [hv']
          show lookupStr _ "image" = _
          rw [lookupStr_mapRemove_ne _ _ _ (by decide)]
          exact lookupStr_mapInsert_self _ _ _
        · intro t ht1 ht2
          rw [hv']
          show lookupStr _ t = lookupStr es t
          rw [lookupStr_mapRemove_ne _ _ _ ht1, lookupStr_mapInsert_ne _ _ _ _ ht2]
        · intro k0 v0 h1 h2
          rw [hv']
          show (k0, v0) ∈ mapRemove _ "build" ↔ (k0, v0) ∈ es
          rw [mem_mapRemove_iff h1, mem_mapInsert_iff h2]
    | str t => simp [Yaml.get] at hb
    | num n => simp [Yaml.get] at hb
    | bool b => simp [Yaml.get] at hb
    | null => simp [Yaml.get] at hb
    | seq l => simp [Yaml.get] at hb

theorem transformService_error_iff {ctx : BuildContext} {k v : Yaml} {e : RewriteError} :
    transformService ctx k v = .error e ↔
      ∃ s : String, k = .str s ∧ v.get "build" ≠ none
        ∧ ctx.containers.filter (fun c => c.name == s) = []
        ∧ e = .missingContainer s := by
  constructor
  · intro h
    cases hb : Yaml.get v "build" with
    | none =>
      exfalso
      have heq : transformService ctx k v = .ok v := by
        simp [transformService, hb]
      rw [heq] at h
      exact absurd h (by simp)
    | some bv =>
      cases k with
      | str s =>
        cases v with
        | map es =>
          cases hf : ctx.containers.filter (fun c => c.name == s) with
          | nil =>
            have heq : transformService ctx (.str s) (.map es)
                = .error (.missingContainer s) := by
              simp [transformService, hb, hf]
            rw [heq] at h
            have he : RewriteError.missingContainer s = e := by simpa using h
            exact ⟨s, rfl, by simp [hb], hf, he.symm⟩
          | cons c cs =>
            exfalso
            have heq : transformService ctx (.str s) (.map es)
                = .ok (.map (mapRemove (mapInsert es "image" (.str (ctx.image c))) "build")) := by
              simp [transformService, hb, hf]
            rw [heq] at h
            exact absurd h (by simp)
        | str t => simp [Yaml.get] at hb
        | num n => simp [Yaml.get] at hb
        | bool b => simp [Yaml.get] at hb
        | null => simp [Yaml.get] at hb
        | seq l => simp [Yaml.get] at hb
      | num n =>
        exfalso
        have heq : transformService ctx (.num n) v = .ok v := by
          simp [transformService, hb]
        rw [heq] at h
        exact absurd h (by simp)
      | bool b =>
        exfalso
        have heq : transformService ctx (.bool b) v = .ok v := by
          simp [transformService, hb]
        rw [heq] at h
        exact absurd h (by simp)
      | null =>
        exfalso
        have heq : transformService ctx .null v = .ok v := by
          simp [transformService, hb]
        rw [heq] at h
        exact absurd h (by simp)
      | seq l =>
        exfalso
        have heq : transformService ctx (.seq l) v = .ok v := by
          simp [transformService, hb]
        rw [heq] at h
        exact absurd h (by simp)
      | map m =>
        exfalso
        have heq : transformService ctx (.map m) v = .ok v := by
          simp [transformService, hb]
        rw [heq] at h
        exact absurd h (by simp)
  · rintro ⟨s, rfl, hne, hfil, rfl⟩
    cases hb : Yaml.get v "build" with
    | none => exact absurd hb hne
    | some bv =>
      cases v with
      | map es => simp [transformService, hb, hfil]
      | str t => simp [Yaml.get] at hb
      | num n => simp [Yaml.get] at hb
      | bool b => simp [Yaml.get] at hb
      | null => simp [Yaml.get] at hb
      | seq l => simp [Yaml.get] at hb

/-! ## Lemmas on the rewrite of the whole services mapping -/

theorem transformServices_ok_forall₂ {ctx : BuildContext} :
    ∀ {l l' : List (Yaml × Yaml)},
      (∀ p ∈ l, ∃ s : String, p.1 = Yaml.str s) →
      transformServices ctx l = .ok l' →
      List.Forall₂ (fun p q : Yaml × Yaml =>
        q.1 = p.1 ∧
        ((p.2.get "build" = none ∧ q.2 = p.2)
          ∨ (∃ s : String, p.1 = .str s ∧ p.2.get "build" ≠ none
              ∧ ∃ c, firstContainer ctx s = some c
              ∧ q.2.get "build" = none
              ∧ q.2.get "image" = some (.str (ctx.image c))
              ∧ (∀ t : String, t ≠ "build" → t ≠ "image" → q.2.get t = p.2.get t)
              ∧ (∀ k0 v0 : Yaml, keyIs k0 "build" = false → keyIs k0 "image" = false →
                  (entryMem k0 v0 q.2 ↔ entryMem k0 v0 p.2))))) l l' := by
    intro l
    induction l with
    | nil =>
      intro l' hkeys hok
      have hl' : l' = [] := by simpa [transformServices] using hok.symm
      subst hl'
      exact List.Forall₂.nil
    | cons p ps ih =>
      intro l' hkeys hok
      obtain ⟨k, v⟩ := p
      cases hv : transformService ctx k v with
      | error e => simp [transformServices, bind, Except.bind, hv] at hok
      | ok v1 =>
        cases hrest : transformServices ctx ps with
        | error e => simp [transformServices, bind, Except.bind, hv, hrest] at hok
        | ok ps1 =>
          have hl' : l' = (k, v1) :: ps1 := by
            simpa [transformServices, bind, Except.bind, pure, Except.pure, hv, hrest]
              using hok.symm
          subst hl'
          obtain ⟨s, hs⟩ := hkeys (k, v) (List.mem_cons_self _ _)
          have hs' : k = Yaml.str s := hs
          subst hs'
          refine List.Forall₂.cons ⟨rfl, ?_⟩
            (ih (fun q hq => hkeys q (List.mem_cons_of_mem _ hq)) hrest)
          rcases transformService_ok_cases hv with ⟨h1, h2⟩ | ⟨h1, c, h2⟩
          · exact Or.inl ⟨h1, h2⟩
          · exact Or.inr ⟨s, rfl, h1, c, h2⟩

theorem forall₂_fst_eq {R : Yaml × Yaml → Yaml × Yaml → Prop}
    (hR : ∀ p q, R p q → q.1 = p.1) :
    ∀ {l l' : List (Yaml × Yaml)}, List.Forall₂ R l l' →
      l'.map Prod.fst = l.map Prod.fst := by
  intro l l' h
  induction h with
  | nil => rfl
  | cons hpq htail ih => simp [hR _ _ hpq, ih]

theorem transformServices_error_mem {ctx : BuildContext} :
    ∀ {l : List (Yaml × Yaml)} {e : RewriteError},
      transformServices ctx l = .error e →
      ∃ p ∈ l, transformService ctx p.1 p.2 = .error e := by
  intro l
  induction l with
  | nil => intro e h; simp [transformServices] at h
  | cons p ps ih =>
    intro e h
    obtain ⟨k, v⟩ := p
    cases hv : transformService ctx k v with
    | error e1 =>
      have he1 : e1 = e := by
        simpa [transformServices, bind, Except.bind, hv] using h
      subst he1
      exact ⟨(k, v), List.mem_cons_self _ _, hv⟩
    | ok v1 =>
      cases hrest : transformServices ctx ps with
      | error e2 =>
        have he2 : e2 = e := by
          simpa [transformServices, bind, Except.bind, hv, hrest] using h
        subst he2
        obtain ⟨q, hq, hqe⟩ := ih hrest
        exact ⟨q, List.mem_cons_of_mem _ hq, hqe⟩
      | ok ps1 =>
        simp [transformServices, bind, Except.bind, pure, Except.pure, hv, hrest] at h

theorem transformServices_error_of_mem {ctx : BuildContext} :
    ∀ {l : List (Yaml × Yaml)} {k v : Yaml} {e : RewriteError},
      (k, v) ∈ l → transformService ctx k v = .error e →
      ∃ e', transformServices ctx l = .error e' := by
  intro l
  induction l with
  | nil => intro k v e hmem _; cases hmem
  | cons p ps ih =>
    intro k v e hmem he
    obtain ⟨k0, v0⟩ := p
    cases hv : transformService ctx k0 v0 with
    | error e1 => exact ⟨e1, by simp [transformServices, bind, Except.bind, hv]⟩
    | ok v1 =>
      rcases List.mem_cons.mp hmem with heq | hmem'
      · exfalso
        cases heq
        rw [he] at hv
        exact absurd hv (by simp)
      · obtain ⟨e', he'⟩ := ih hmem' he
        exact ⟨e', by simp [transformServices, bind, Except.bind, hv, he']⟩

theorem transform_ok_parts {ctx : BuildContext} {topEs svcEs : List (Yaml × Yaml)} {out : Yaml}
    (hsvc : lookupStr topEs "services" = some (.map svcEs))
    (hok : ctx.transform_docker_compose (.map topEs) = .ok out) :
    ∃ svcEs', transformServices ctx svcEs = .ok svcEs'
      ∧ out = .map (mapSetValue topEs "services" (.map svcEs')) := by
  simp only [BuildContext.transform_docker_compose] at hok
  rw [hsvc] at hok
  cases hts : transformServices ctx svcEs with
  | error e => simp [bind, Except.bind, hts] at hok
  | ok svcEs' =>
    refine ⟨svcEs', rfl, ?_⟩
    have := hok
    simp [bind, Except.bind, pure, Except.pure, hts] at this
    exact this.symm

/-- C2: on any manifest whose service keys are strings (the data-model
invariant, enforced upstream by the typed parse), a successful rewrite
serializes the same top-level document with only the `services` value
replaced; service names and their source order are preserved; a service
without a `build` key is passed through unchanged; and a service with one
ends up with its `build` key gone, an `image` key holding the resolved
reference of its catalog entry, and every other key and value untouched. -/
theorem claim_rewrite_frame (ctx : BuildContext) (topEs svcEs : List (Yaml × Yaml))
    (out : Yaml)
    (hsvc : lookupStr topEs "services" = some (.map svcEs))
    (hkeys : ∀ p ∈ svcEs, ∃ s : String, p.1 = Yaml.str s)
    (hok : ctx.transform_docker_compose (.map topEs) = .ok out) :
    ∃ svcEs' : List (Yaml × Yaml),
      out = .map (mapSetValue topEs "services" (.map svcEs'))
      ∧ svcEs'.map Prod.fst = svcEs.map Prod.fst
      ∧ List.Forall₂ (fun p q : Yaml × Yaml =>
          q.1 = p.1 ∧
          ((p.2.get "build" = none ∧ q.2 = p.2)
            ∨ (∃ s : String, p.1 = .str s ∧ p.2.get "build" ≠ none
                ∧ ∃ c, firstContainer ctx s = some c
                ∧ q.2.get "build" = none
                ∧ q.2.get "image" = some (.str (ctx.image c))
                ∧ (∀ t : String, t ≠ "build" → t ≠ "image" → q.2.get t = p.2.get t)
                ∧ (∀ k0 v0 : Yaml, keyIs k0 "build" = false → keyIs k0 "image" = false →
                    (entryMem k0 v0 q.2 ↔ entryMem k0 v0 p.2))))) svcEs svcEs' := by
  obtain ⟨svcEs', hts, hout⟩ := transform_ok_parts hsvc hok
  have hfa := transformServices_ok_forall₂ hkeys hts
  exact ⟨svcEs', hout, forall₂_fst_eq (fun p q h => h.1) hfa, hfa⟩

/-- C2 witness: the spec's worked example — `api` builds from `./api`,
`cache` runs `redis:7` with no build — rewritten under a catalog holding
exactly `api`. -/
theorem claim_rewrite_frame_witness :
    ∃ svcEs' : List (Yaml × Yaml),
      wOut2 = .map (mapSetValue wTop2 "services" (.map svcEs'))
      ∧ svcEs'.map Prod.fst = wSvc2.map Prod.fst
      ∧ List.Forall₂ (fun p q : Yaml × Yaml =>
          q.1 = p.1 ∧
          ((p.2.get "build" = none ∧ q.2 = p.2)
            ∨ (∃ s : String, p.1 = .str s ∧ p.2.get "build" ≠ none
                ∧ ∃ c, firstContainer wCtx2 s = some c
                ∧ q.2.get "build" = none
                ∧ q.2.get "image" = some (.str (wCtx2.image c))
                ∧ (∀ t : String, t ≠ "build" → t ≠ "image" → q.2.get t = p.2.get t)
                ∧ (∀ k0 v0 : Yaml, keyIs k0 "build" = false → keyIs k0 "image" = false →
                    (entryMem k0 v0 q.2 ↔ entryMem k0 v0 p.2))))) wSvc2 svcEs' := by
  refine claim_rewrite_frame wCtx2 wTop2 wSvc2 wOut2 (by rfl) ?_ (by rfl)
  intro p hp
  rcases List.mem_cons.mp hp with h | hp'
  · exact ⟨"api", by rw [h]⟩
  · rcases List.mem_cons.mp hp' with h | hp''
    · exact ⟨"cache", by rw [h]⟩
    · cases hp''

theorem transform_error_cases {ctx : BuildContext} {input : Yaml} {e : RewriteError}
    (h : ctx.transform_docker_compose input = .error e) :
    (servicesOf input = none ∧ e = .noServices)
    ∨ ∃ svcEs, servicesOf input = some svcEs
        ∧ ∃ p ∈ svcEs, transformService ctx p.1 p.2 = .error e := by
  cases input with
  | map topEs =>
    simp only [BuildContext.transform_docker_compose] at h
    cases hsl : lookupStr topEs "services" with
    | none =>
      rw [hsl] at h
      exact Or.inl ⟨by simp [servicesOf, hsl], by simpa using h.symm⟩
    | some sv =>
      rw [hsl] at h
      cases sv with
      | map svcEs =>
        cases hts : transformServices ctx svcEs with
        | error e0 =>
          have he0 : e0 = e := by simpa [bind, Except.bind, hts] using h
          subst he0
          exact Or.inr ⟨svcEs, by simp [servicesOf, hsl], transformServices_error_mem hts⟩
        | ok l' => simp [bind, Except.bind, pure, Except.pure, hts] at h
      | str t => exact Or.inl ⟨by simp [servicesOf, hsl], by simpa using h.symm⟩
      | num n => exact Or.inl ⟨by simp [servicesOf, hsl], by simpa using h.symm⟩
      | bool b => exact Or.inl ⟨by simp [servicesOf, hsl], by simpa using h.symm⟩
      | null => exact Or.inl ⟨by simp [servicesOf, hsl], by simpa using h.symm⟩
      | seq l => exact Or.inl ⟨by simp [servicesOf, hsl], by simpa using h.symm⟩
  | str t => exact Or.inl ⟨rfl, by simpa [BuildContext.transform_docker_compose] using h.symm⟩
  | num n => exact Or.inl ⟨rfl, by simpa [BuildContext.transform_docker_compose] using h.symm⟩
  | bool b => exact Or.inl ⟨rfl, by simpa [BuildContext.transform_docker_compose] using h.symm⟩
  | null => exact Or.inl ⟨rfl, by simpa [BuildContext.transform_docker_compose] using h.symm⟩
  | seq l => exact Or.inl ⟨rfl, by simpa [BuildContext.transform_docker_compose] using h.symm⟩

theorem transform_noServices {ctx : BuildContext} {input : Yaml}
    (h : servicesOf input = none) :
    ctx.transform_docker_compose input = .error .noServices := by
  cases input with
  | map topEs =>
    simp only [BuildContext.transform_docker_compose]
    cases hsl : lookupStr topEs "services" with
    | none => rfl
    | some sv =>
      cases sv with
      | map svcEs => simp [servicesOf, hsl] at h
      | str t => rfl
      | num n => rfl
      | bool b => rfl
      | null => rfl
      | seq l => rfl
  | str t => rfl
  | num n => rfl
  | bool b => rfl
  | null => rfl
  | seq l => rfl

theorem transform_error_of_entry {ctx : BuildContext} {input : Yaml}
    {svcEs : List (Yaml × Yaml)} {s : String} {vv : Yaml}
    (hsv : servicesOf input = some svcEs)
    (hmem : (Yaml.str s, vv) ∈ svcEs) (hb : vv.get "build" ≠ none)
    (hfil : ctx.containers.filter (fun c => c.name == s) = []) :
    ∃ e, ctx.transform_docker_compose input = .error e := by
  cases input with
  | map topEs =>
    cases hsl : lookupStr topEs "services" with
    | none => simp [servicesOf, hsl] at hsv
    | some sv =>
      cases sv with
      | map svcEs0 =>
        have heq : svcEs0 = svcEs := by simpa [servicesOf, hsl] using hsv
        subst heq
        have hserr : transformService ctx (Yaml.str s) vv = .error (.missingContainer s) :=
          transformService_error_iff.mpr ⟨s, rfl, hb, hfil, rfl⟩
        obtain ⟨e', he'⟩ := transformServices_error_of_mem hmem hserr
        refine ⟨e', ?_⟩
        simp only [BuildContext.transform_docker_compose]
        rw [hsl]
        simp [bind, Except.bind, he']
      | str t => simp [servicesOf, hsl] at hsv
      | num n => simp [servicesOf, hsl] at hsv
      | bool b => simp [servicesOf, hsl] at hsv
      | null => simp [servicesOf, hsl] at hsv
      | seq l => simp [servicesOf, hsl] at hsv
  | str t => simp [servicesOf] at hsv
  | num n => simp [servicesOf] at hsv
  | bool b => simp [servicesOf] at hsv
  | null => simp [servicesOf] at hsv
  | seq l => simp [servicesOf] at hsv

/-- C3: the rewrite fails exactly when the document has no mapping-shaped
`services` section or some string-keyed service carrying a `build` key has
no catalog entry with its name (in the code that second case is the
`container[0]` index panic; both abort the process before output exists).
The `service is not a map` error is unreachable, and on any failure
`push_files` stages and transfers nothing. -/
theorem claim_rewrite_errors (ctx : BuildContext) (input : Yaml) :
    ((∃ e, ctx.transform_docker_compose input = .error e) ↔
      (servicesOf input = none
        ∨ ∃ svcEs, servicesOf input = some svcEs
            ∧ ∃ s vv, (Yaml.str s, vv) ∈ svcEs ∧ vv.get "build" ≠ none
            ∧ ctx.containers.filter (fun c => c.name == s) = []))
    ∧ (∀ e, ctx.transform_docker_compose input = .error e → e ≠ .serviceNotMap)
    ∧ (∀ e, ctx.transform_docker_compose input = .error e →
        ∀ (exec : Exec) (tmpDir : String),
          ctx.push_files exec input tmpDir = ([], false)) := by
  refine ⟨⟨?_, ?_⟩, ?_, ?_⟩
  · rintro ⟨e, he⟩
    rcases transform_error_cases he with ⟨h1, _⟩ | ⟨svcEs, h1, p, hp, hpe⟩
    · exact Or.inl h1
    · obtain ⟨s, hs, hbne, hfil, _⟩ := transformService_error_iff.mp hpe
      refine Or.inr ⟨svcEs, h1, s, p.2, ?_, hbne, hfil⟩
      rw [← hs]
      exact hp
  · rintro (h | ⟨svcEs, h1, s, vv, hmem, hb, hfil⟩)
    · exact ⟨.noServices, transform_noServices h⟩
    · exact transform_error_of_entry h1 hmem hb hfil
  · intro e he
    rcases transform_error_cases he with ⟨_, h2⟩ | ⟨svcEs, _, p, _, hpe⟩
    · subst h2; simp
    · obtain ⟨s, _, _, _, he'⟩ := transformService_error_iff.mp hpe
      subst he'; simp
  · intro e he exec tmpDir
    simp [BuildContext.push_files, he]

/-- C3 witness: against an empty catalog, the example document (whose
`api` service has a build key) makes the rewrite fail. -/
theorem claim_rewrite_errors_witness :
    ∃ e, wCtx3.transform_docker_compose (.map wTop2) = .error e := by
  refine (claim_rewrite_errors wCtx3 (.map wTop2)).1.mpr (Or.inr ?_)
  refine ⟨wSvc2, by rfl, "api",
    .map [(.str "build", .str "./api"), (.str "restart", .str "always")], ?_, ?_, rfl⟩
  · simp [wSvc2]
  · simp [Yaml.get, lookupStr, keyIs]

/-! ## Parsing failure of a malformed build field -/

theorem parseDockerService_bad_build {ses : List (Yaml × Yaml)} {bv : Yaml}
    (hbv : lookupStr ses "build" = some bv) (hnn : bv ≠ .null)
    (hbad : parseDockerBuild bv = none) :
    parseDockerService (.map ses) = none := by
  simp only [parseDockerService]
  rw [hbv]
  cases bv with
  | null => exact absurd rfl hnn
  | str t => simp [bind, hbad]
  | num n => simp [bind, hbad]
  | bool b => simp [bind, hbad]
  | seq l => simp [bind, hbad]
  | map m => simp [bind, hbad]

theorem parse_entries_fail :
    ∀ {l : List (Yaml × Yaml)} {k v : Yaml},
      (k, v) ∈ l → parseDockerService v = none →
      parseServiceEntries l = none := by
  intro l
  induction l with
  | nil => intro k v hmem _; cases hmem
  | cons p ps ih =>
    intro k v hmem hv
    rcases List.mem_cons.mp hmem with heq | hmem'
    · cases heq
      cases hk : parseString k with
      | none => simp [parseServiceEntries, bind, hk]
      | some s => simp [parseServiceEntries, bind, hk, hv]
    · have hrest := ih hmem' hv
      cases hname : parseString p.1 with
      | none => simp [parseServiceEntries, bind, hname]
      | some nm =>
        cases hsvc2 : parseDockerService p.2 with
        | none => simp [parseServiceEntries, bind, hname, hsvc2]
        | some sv => simp [parseServiceEntries, bind, hname, hsvc2, hrest]

/-- C4 counterexample: in `badComposeYaml` the `broken` service's build
value matches neither the scalar shape nor the structured shape, while its
sibling `good` is a perfectly well-formed service; the claim says the
parser skips only `broken` and keeps going, but the typed parse of the
whole manifest (the untagged-enum deserialization of
`read_docker_compose`) fails outright. -/
theorem claim_parse_skip_counterexample :
    parseDockerBuild badBuildYaml = none
    ∧ parseDockerService goodServiceYaml = some ⟨some (.Str "./good"), some "always"⟩
    ∧ parseDockerFile badComposeYaml = none :=
  ⟨rfl, rfl, rfl⟩

/-- C4 amended: a service whose build field matches neither the scalar nor
the structured shape makes the parse of the entire manifest fail — the
malformed entry aborts the whole parse; there is no per-service skip. -/
theorem claim_parse_abort_amended (topEs svcEs ses : List (Yaml × Yaml)) (k bv : Yaml)
    (hsvc : lookupStr topEs "services" = some (.map svcEs))
    (hmem : (k, Yaml.map ses) ∈ svcEs)
    (hbv : lookupStr ses "build" = some bv) (hnn : bv ≠ .null)
    (hbad : parseDockerBuild bv = none) :
    parseDockerFile (.map topEs) = none := by
  have hv : parseDockerService (.map ses) = none :=
    parseDockerService_bad_build hbv hnn hbad
  have hmapM := parse_entries_fail hmem hv
  simp only [parseDockerFile]
  rw [hsvc]
  simp [bind, hmapM]

/-- C4 amended witness: the concrete two-service manifest with one
malformed build aborts as a whole. -/
theorem claim_parse_abort_amended_witness :
    parseDockerFile badComposeYaml = none := by
  have h := claim_parse_abort_amended
    [(.str "services", .map
      [(.str "broken", .map [(.str "build", badBuildYaml), (.str "restart", .str "always")]),
       (.str "good", .map [(.str "build", .str "./good"), (.str "restart", .str "always")])])]
    [(.str "broken", .map [(.str "build", badBuildYaml), (.str "restart", .str "always")]),
     (.str "good", .map [(.str "build", .str "./good"), (.str "restart", .str "always")])]
    [(.str "build", badBuildYaml), (.str "restart", .str "always")]
    (.str "broken") badBuildYaml
    (by rfl) (List.mem_cons_self _ _) (by rfl) (by simp [badBuildYaml]) (by rfl)
  exact h

/-! ## Version fixity and the dispatcher -/

theorem deploy_events (ctx : BuildContext) (exec : Exec) (input : Yaml) (tmpDir : String) :
    ∀ e ∈ (ctx.deploy exec input tmpDir).1,
      (∀ v ∈ eventVersionArgs e, v = ctx.version)
      ∧ (∀ img ∈ eventImages e, ∃ c ∈ ctx.containers, img = ctx.image c) := by
  intro e he
  rcases deploy_mem he with h | h | h
  · rcases push_mem h with h' | h'
    · rcases push_containers_mem h' with ⟨s, rfl⟩ | ⟨c, hc, rfl⟩ | ⟨c, hc, rfl⟩
      · exact ⟨fun v hv => by simp [eventVersionArgs] at hv,
               fun img him => by simp [eventImages] at him⟩
      · constructor
        · intro v hv
          simp [buildEvent, eventVersionArgs] at hv
          exact hv
        · intro img him
          simp [buildEvent, eventImages] at him
          exact ⟨c, hc, him⟩
      · constructor
        · intro v hv
          simp [eventVersionArgs] at hv
        · intro img him
          simp [eventImages] at him
          exact ⟨c, hc, him⟩
    · rcases push_files_mem h' with ⟨p, d0, rfl⟩ | ⟨ps, dest, rfl⟩
      · exact ⟨fun v hv => by simp [eventVersionArgs] at hv,
               fun img him => by simp [eventImages] at him⟩
      · exact ⟨fun v hv => by simp [eventVersionArgs] at hv,
               fun img him => by simp [eventImages] at him⟩
  · subst h
    exact ⟨fun v hv => by simp [pullEvent, eventVersionArgs] at hv,
           fun img him => by simp [pullEvent, eventImages] at him⟩
  · subst h
    exact ⟨fun v hv => by simp [upEvent, eventVersionArgs] at hv,
           fun img him => by simp [upEvent, eventImages] at him⟩

/-- C6: the version string is resolved once per invocation — `git_version`
is a pure function of the version-control state, so within one run it is a
single fixed value — the constructed context carries exactly that value,
every image reference is `registry/name:version` with that value, and
every external command of a full deploy run passes that value as its
`VERSION` argument and tags every image with it. -/
theorem claim_version_fixed (pull : Bool) (cy dy : Yaml) (f : DockerFile) (d : DepConfig)
    (g : GitState) (exec : Exec) (tmpDir : String)
    (hf : parseDockerFile cy = some f) (hd : parseDepConfig dy = some d) :
    (mainCtx pull f d g).version = git_version g
    ∧ (∀ c, (mainCtx pull f d g).image c
        = d.registry ++ "/" ++ c.name ++ ":" ++ git_version g)
    ∧ (∀ e ∈ (mainRun pull .deploy (some cy) (some dy) (some g) exec tmpDir).1,
        (∀ v ∈ eventVersionArgs e, v = git_version g)
        ∧ (∀ img ∈ eventImages e, ∃ c ∈ (mainCtx pull f d g).containers,
            img = d.registry ++ "/" ++ c.name ++ ":" ++ git_version g)) := by
  have hmain : mainRun pull .deploy (some cy) (some dy) (some g) exec tmpDir
      = (mainCtx pull f d g).deploy exec cy tmpDir := by
    simp [mainRun, hf, hd, mainCtx]
  refine ⟨rfl, fun c => rfl, ?_⟩
  rw [hmain]
  intro e he
  exact deploy_events _ exec cy tmpDir e he

/-- C6 witness: the context built from the example inputs carries the
resolved git version. -/
theorem claim_version_fixed_witness :
    (mainCtx false wFile wDep wGit).version = git_version wGit :=
  (claim_version_fixed false wComposeYaml wDepYaml wFile wDep wGit wExecOk "/tmp/stage"
    (by rfl) (by rfl)).1

/-- C7: `push --no-docker` runs only the file-transfer stage: the
dispatcher calls `push_files` alone, its trace holds no `docker build` and
no `docker push` command, and (when staging succeeds) it is exactly the
staging of the rewritten manifest followed by the rsync of the staging
directory plus the configured additional files to the remote target. -/
theorem claim_push_no_docker (pull : Bool) (cy dy : Yaml) (f : DockerFile) (d : DepConfig)
    (g : GitState) (exec : Exec) (tmpDir : String) (doc : Yaml)
    (hf : parseDockerFile cy = some f) (hd : parseDepConfig dy = some d)
    (hok : (mainCtx pull f d g).transform_docker_compose cy = .ok doc) :
    mainRun pull (.push true) (some cy) (some dy) (some g) exec tmpDir
      = (mainCtx pull f d g).push_files exec cy tmpDir
    ∧ (∀ e ∈ (mainRun pull (.push true) (some cy) (some dy) (some g) exec tmpDir).1,
        isBuildEvent e = false ∧ isPushEvent e = false)
    ∧ (exec (.stage (tmpDir ++ "/docker-compose.yaml") doc) = true →
        mainRun pull (.push true) (some cy) (some dy) (some g) exec tmpDir
          = ([.stage (tmpDir ++ "/docker-compose.yaml") doc,
              .rsync (rsyncPaths (mainCtx pull f d g) tmpDir) (mainCtx pull f d g).remote_dir],
             exec (.rsync (rsyncPaths (mainCtx pull f d g) tmpDir)
               (mainCtx pull f d g).remote_dir))) := by
  have hmain : mainRun pull (.push true) (some cy) (some dy) (some g) exec tmpDir
      = (mainCtx pull f d g).push_files exec cy tmpDir := by
    simp [mainRun, hf, hd, mainCtx]
  refine ⟨hmain, ?_, ?_⟩
  · intro e he
    rw [hmain] at he
    rcases push_files_mem he with ⟨p, d0, rfl⟩ | ⟨ps, dest, rfl⟩
    · exact ⟨rfl, rfl⟩
    · exact ⟨rfl, rfl⟩
  · intro hstage
    rw [hmain]
    simp [BuildContext.push_files, hok, emit, andThen, hstage]

/-- C10: every subcommand other than `init` — the output-only `version`
and `compose` included — first needs the parsed manifest, the parsed
deployment configuration and the git state; if any of them is missing or
structurally invalid the run produces no event and exits non-zero. -/
theorem claim_commands_require_inputs (pull : Bool) (cmd : CliCommand)
    (composeYaml depYaml : Option Yaml) (gs : Option GitState) (exec : Exec)
    (tmpDir : String) (hcmd : cmd ≠ .init)
    (hbad : composeYaml = none
      ∨ (∃ y, composeYaml = some y ∧ parseDockerFile y = none)
      ∨ depYaml = none
      ∨ (∃ y, depYaml = some y ∧ parseDepConfig y = none)
      ∨ gs = none) :
    mainRun pull cmd composeYaml depYaml gs exec tmpDir = ([], false) := by
  unfold mainRun
  rw [if_neg hcmd]
  rcases hbad with h | ⟨y, hy, hp⟩ | h | ⟨y, hy, hp⟩ | h
  · subst h; rfl
  · subst hy; simp [hp]
  · subst h
    cases composeYaml with
    | none => rfl
    | some y2 =>
      cases hpf : parseDockerFile y2 with
      | none => simp [hpf]
      | some f => simp [hpf]
  · subst hy
    cases composeYaml with
    | none => rfl
    | some y2 =>
      cases hpf : parseDockerFile y2 with
      | none => simp [hpf]
      | some f => simp [hpf, hp]
  · subst h
    cases composeYaml with
    | none => rfl
    | some y2 =>
      cases hpf : parseDockerFile y2 with
      | none => simp [hpf]
      | some f =>
        cases depYaml with
        | none => simp [hpf]
        | some dy2 =>
          cases hpd : parseDepConfig dy2 with
          | none => simp [hpf, hpd]
          | some d => simp [hpf, hpd]

/-- C10 witness: `version` with a missing manifest file exits non-zero
with no side effect. -/
theorem claim_commands_require_inputs_witness :
    mainRun false .version none (some wDepYaml) (some wGit) wExecOk "/tmp/stage"
      = ([], false) :=
  claim_commands_require_inputs false .version none (some wDepYaml) (some wGit) wExecOk
    "/tmp/stage" (by simp) (Or.inl rfl)

/-- C1 witness: the example manifest (one buildable service of two) yields
a one-entry catalog. -/
theorem claim_catalog_derivation_witness :
    ((from_docker_file wFile).2).length
      = (wFile.services.filter (fun p => p.2.build.isSome)).length :=
  (claim_catalog_derivation wFile (by decide)).1

unseal List.merge List.mergeSort in
/-- C7 witness: pushing with `--no-docker` on a manifest with one
non-buildable service runs the file-transfer stage alone. -/
theorem claim_push_no_docker_witness :
    mainRun false (.push true) (some wComposeNB) (some wDepYaml) (some wGit) wExecOk
        "/tmp/stage"
      = (mainCtx false wFileNB wDep wGit).push_files wExecOk wComposeNB "/tmp/stage" :=
  (claim_push_no_docker false wComposeNB wDepYaml wFileNB wDep wGit wExecOk "/tmp/stage"
    wComposeNB (by rfl) (by rfl) (by rfl)).1

end Dep
